import Mathlib

set_option maxRecDepth 100000

/-! # Verification development for the MCP3208 ADC driver (`src/Mcp3208.cpp`)

The C++ code is shallowly embedded: machine integers become `Nat` with an
explicit `% 2 ^ w` wherever the C++ type forces a wrap, the SPI bus / GPIO /
clock collaborators become an explicit `World` record threaded through the
operations, and the unbounded predicate-gated loop takes explicit fuel and
returns `Option`.
-/

/-- One externally visible hardware action: a chip-select transition, one
full-duplex SPI byte exchange (sent byte, received byte), or a busy delay
in microseconds. -/
inductive Event where
  | csLow : Nat → Event
  | csHigh : Nat → Event
  | spiXfer : Nat → Nat → Event
  | delayUs : Nat → Event
  deriving DecidableEq, Repr

/-- The driver's environment: the bytes the SPI slave will answer next, the
upcoming readings of the monotonic microsecond clock, and the log of actions
performed so far. -/
structure World where
  spiResp : List Nat
  clock : List Nat
  events : List Event
  deriving DecidableEq, Repr

/-- Device instance (the `MCP3208` class): reference voltage (`uint16_t`
`mVref`), chip-select pin (`uint8_t` `mCsPin`), and the calibrated
per-sample duration in nanoseconds (`uint32_t` `mSplSpeed`, `0` meaning
uncalibrated).  The SPI handle is represented by `World`. -/
structure MCP3208 where
  mVref : Nat
  mCsPin : Nat
  mSplSpeed : Nat
  deriving DecidableEq, Repr

/-- A channel number, an 8-bit quantity in the driver. -/
abbrev Channel := Nat

/-- `SPIClass::transfer`: blocking full-duplex exchange of one byte.  The
slave's response is the next pending byte (a `uint8_t`, hence `% 256`;
an exhausted simulated bus answers `0`). -/
def spiTransferByte (out : Nat) (w : World) : Nat × World :=
  let inp := w.spiResp.headD 0 % 256
  (inp, { w with spiResp := w.spiResp.tail,
                 events := w.events ++ [Event.spiXfer (out % 256) inp] })

/-- `digitalWrite(pin, LOW)`. -/
def digitalWriteLow (pin : Nat) (w : World) : World :=
  { w with events := w.events ++ [Event.csLow pin] }

/-- `digitalWrite(pin, HIGH)`. -/
def digitalWriteHigh (pin : Nat) (w : World) : World :=
  { w with events := w.events ++ [Event.csHigh pin] }

/-- `delayMicroseconds(d)`: a pure wait, recorded in the event log. -/
def delayMicroseconds (d : Nat) (w : World) : World :=
  { w with events := w.events ++ [Event.delayUs d] }

/-- `micros()`: pops the next reading of the monotonic microsecond clock,
a `uint32_t`. -/
def micros (w : World) : Nat × World :=
  (w.clock.headD 0 % 4294967296, { w with clock := w.clock.tail })

/-- The `div_round(n,d)` macro: `((n) + ((d) >> 2)) / (d)`.  At both call
sites the addition is carried out in `uint32_t`, hence the `% 2 ^ 32` wrap.
Note the macro adds `d >> 2` (a quarter of the divisor), although its
comment in the source says "round to next integer". -/
def div_round (n d : Nat) : Nat :=
  ((n + (d >>> 2)) % 4294967296) / d

/-- `uint32_t` subtraction `a - b` with wraparound. -/
def usub32 (a b : Nat) : Nat :=
  (4294967296 + a % 4294967296 - b % 4294967296) % 4294967296

/-- The tail of `getSplDelay`: the `uint32_t` quotient is converted to
`int16_t` (two's-complement truncation), negative values are clamped to 0,
and the result is returned as `uint16_t`. -/
def clampDelay (q : Nat) : Nat :=
  if 32768 ≤ q % 65536 then 0 else q % 65536

/-- Modelled from the spec: the resolution constant `kRes` (4096 codes,
12 bits) is declared in the header `Mcp3208.h`, which is not among the
sources. -/
def kRes : Nat := 4096

/-- Modelled from the spec: the `SpiData` union (declared in the missing
header) overlays a 16-bit value with its high and low bytes; following
design note §9 it is embedded with explicit shifts and masks.
High byte of a 16-bit value. -/
def hiByte (v : Nat) : Nat := (v % 65536) >>> 8

/-- Modelled from the spec: low byte of a 16-bit value (`value & 0xFF`). -/
def loByte (v : Nat) : Nat := v &&& 0xFF

/-- Modelled from the spec: the 16-bit value of a `SpiData` union whose high
and low bytes were assigned separately (`(hi << 8) | lo`). -/
def byteVal (hi lo : Nat) : Nat := ((hi % 256) <<< 8) ||| (lo % 256)

/-- `MCP3208::createCmd`: the command word `0x0400 | (ch << 6)`, stored in a
`uint16_t`. -/
def MCP3208.createCmd (ch : Channel) : Nat :=
  (0x0400 ||| (ch <<< 6)) % 65536

/-- `MCP3208::transfer` (const): assert chip select, exchange the high then
the low command byte (keeping the low 4 bits of the second response as the
result's high byte), clock out a dummy `0x00` for the low result byte,
deassert chip select, and return the assembled 12-bit value. -/
def MCP3208.transfer (s : MCP3208) (cmd : Nat) (w : World) : Nat × World :=
  let w := digitalWriteLow s.mCsPin w
  let (_, w) := spiTransferByte (hiByte cmd) w
  let (r2, w) := spiTransferByte (loByte cmd) w
  let adcHi := r2 &&& 0x0F
  let (r3, w) := spiTransferByte 0x00 w
  let adcLo := r3
  let w := digitalWriteHigh s.mCsPin w
  (byteVal adcHi adcLo, w)

/-- `MCP3208::read` (const): one command encoding, one transfer.  The device
state is returned unchanged (`read` is a const member). -/
def MCP3208.read (s : MCP3208) (ch : Channel) (w : World) :
    Nat × MCP3208 × World :=
  let (v, w) := s.transfer (MCP3208.createCmd ch) w
  (v, s, w)

/-- The sampling loop shared by the fixed-count readers: `num` transfers of
the same command word, results collected in order. -/
def readLoop (s : MCP3208) (cmd : Nat) : Nat → World → List Nat × World
  | 0, w => ([], w)
  | Nat.succ n, w =>
    let (v, w) := s.transfer cmd w
    let (vs, w') := readLoop s cmd n w
    (v :: vs, w')

/-- The sampling loop of the rate-limited readers: each transfer is followed
by `delayMicroseconds d` (including after the last sample). -/
def readLoopDelay (s : MCP3208) (cmd d : Nat) : Nat → World → List Nat × World
  | 0, w => ([], w)
  | Nat.succ n, w =>
    let (v, w) := s.transfer cmd w
    let w := delayMicroseconds d w
    let (vs, w') := readLoopDelay s cmd d n w
    (v :: vs, w')

/-- `MCP3208::readn` (const, no frequency): encode once, transfer `num`
times with no inter-sample delay. -/
def MCP3208.readn (s : MCP3208) (ch : Channel) (num : Nat) (w : World) :
    List Nat × MCP3208 × World :=
  let (vs, w) := readLoop s (MCP3208.createCmd ch) num w
  (vs, s, w)

/-- The gating loop of `readn_if`: `while (!p(transfer(cmd))) {}`.  The C++
loop is unbounded, so the embedding takes fuel and returns `none` when the
fuel is exhausted before the predicate holds. -/
def gateLoop (s : MCP3208) (cmd : Nat) (p : Nat → Bool) :
    Nat → World → Option World
  | 0, _ => none
  | Nat.succ n, w =>
    let (v, w) := s.transfer cmd w
    if p v then some w else gateLoop s cmd p n w

/-- `MCP3208::readn_if` (const, no frequency): encode once, transfer and
discard until the predicate holds (the satisfying sample is discarded too),
then collect `num` further samples. -/
def MCP3208.readn_if (s : MCP3208) (ch : Channel) (num : Nat)
    (p : Nat → Bool) (fuel : Nat) (w : World) :
    Option (List Nat × MCP3208 × World) :=
  match gateLoop s (MCP3208.createCmd ch) p fuel w with
  | none => none
  | some w' =>
    let (vs, w'') := readLoop s (MCP3208.createCmd ch) num w'
    some (vs, s, w'')

/-- `MCP3208::testSplSpeed(ch, num)` (const): time `num` back-to-back reads
with the microsecond clock and return `div_round((t2 - t1) * 1000, num)`,
all in `uint32_t`. -/
def MCP3208.testSplSpeed (s : MCP3208) (ch : Channel) (num : Nat)
    (w : World) : Nat × MCP3208 × World :=
  let (t1, w) := micros w
  let (_, w) := readLoop s (MCP3208.createCmd ch) num w
  let (t2, w) := micros w
  (div_round (usub32 t2 t1 * 1000 % 4294967296) num, s, w)

/-- `MCP3208::testSplSpeed(ch)` (const): the ad-hoc 64-sample measurement. -/
def MCP3208.testSplSpeed64 (s : MCP3208) (ch : Channel) (w : World) :
    Nat × MCP3208 × World :=
  s.testSplSpeed ch 64 w

/-- `MCP3208::calibrate`: run the 256-sample measurement and store the result
as the device's baseline conversion duration, overwriting any prior value. -/
def MCP3208.calibrate (s : MCP3208) (ch : Channel) (w : World) :
    MCP3208 × World :=
  let (v, _, w') := s.testSplSpeed ch 256 w
  ({ s with mSplSpeed := v }, w')

/-- `MCP3208::getSplDelay`: desired period `splTime = div_round(1e9, splFreq)`
(`uint32_t`; division by zero is undefined in C++, embedded as `none`);
calibrate first if `mSplSpeed` is zero; then
`int16_t delay = (splTime - mSplSpeed) / 1000` — an unsigned 32-bit
subtraction and division whose quotient is truncated to `int16_t` — and
negative values are clamped to `0`. -/
def MCP3208.getSplDelay (s : MCP3208) (ch : Channel) (splFreq : Nat)
    (w : World) : Option (Nat × MCP3208 × World) :=
  if splFreq % 4294967296 = 0 then none
  else
    let splTime := div_round 1000000000 (splFreq % 4294967296)
    let (s', w') := if s.mSplSpeed = 0 then s.calibrate ch w else (s, w)
    some (clampDelay (usub32 splTime s'.mSplSpeed / 1000), s', w')

/-- `MCP3208::readn` (with target frequency, non-const): encode once, obtain
the delay from `getSplDelay` (possibly calibrating), then transfer `num`
times with the delay after every sample. -/
def MCP3208.readnAtRate (s : MCP3208) (ch : Channel) (num splFreq : Nat)
    (w : World) : Option (List Nat × MCP3208 × World) :=
  match s.getSplDelay ch splFreq w with
  | none => none
  | some (d, s', w') =>
    let (vs, w'') := readLoopDelay s' (MCP3208.createCmd ch) d num w'
    some (vs, s', w'')

/-- `MCP3208::readn_if` (with target frequency, non-const): delay computed
once before the gating loop, then gate, then collect with the delay after
each captured sample. -/
def MCP3208.readn_ifAtRate (s : MCP3208) (ch : Channel) (num splFreq : Nat)
    (p : Nat → Bool) (fuel : Nat) (w : World) :
    Option (List Nat × MCP3208 × World) :=
  match s.getSplDelay ch splFreq w with
  | none => none
  | some (d, s', w') =>
    match gateLoop s' (MCP3208.createCmd ch) p fuel w' with
    | none => none
    | some w'' =>
      let (vs, w3) := readLoopDelay s' (MCP3208.createCmd ch) d num w''
      some (vs, s', w3)

/-- `MCP3208::testSplSpeed(ch, num, splFreq)` (non-const): measure the
achieved rate with the computed inter-sample delay applied inside the timed
window. -/
def MCP3208.testSplSpeedAtRate (s : MCP3208) (ch : Channel)
    (num splFreq : Nat) (w : World) : Option (Nat × MCP3208 × World) :=
  match s.getSplDelay ch splFreq w with
  | none => none
  | some (d, s', w') =>
    let (t1, w') := micros w'
    let (_, w') := readLoopDelay s' (MCP3208.createCmd ch) d num w'
    let (t2, w') := micros w'
    some (div_round (usub32 t2 t1 * 1000 % 4294967296) num, s', w')

/-- `MCP3208::toAnalog` (const): `(uint32_t(raw) * mVref) / (kRes - 1)`,
truncating integer division, returned as `uint16_t`. -/
def MCP3208.toAnalog (s : MCP3208) (raw : Nat) : Nat :=
  (raw % 65536) * (s.mVref % 65536) / (kRes - 1) % 65536

/-- `MCP3208::toDigital` (const): `(uint32_t(val) * (kRes - 1)) / mVref`,
truncating integer division, returned as `uint16_t`. -/
def MCP3208.toDigital (s : MCP3208) (val : Nat) : Nat :=
  (val % 65536) * (kRes - 1) / (s.mVref % 65536) % 65536

/-- The spec's description of `toAnalog` — `round(raw * vref / (kRes - 1))`
to the nearest integer — written out for comparison with the
implementation.  An exact half never occurs (`kRes - 1` is odd), so
rounding half up coincides with the mathematically nearest integer. -/
def toAnalogSpecRounded (s : MCP3208) (raw : Nat) : Nat :=
  ((raw % 65536) * (s.mVref % 65536) + (kRes - 1) / 2) / (kRes - 1)

/-- The three response bytes a simulated ADC supplies for one transfer of a
12-bit sample `v`: a don't-care byte for the first exchange, then the high
nibble, then the low byte. -/
def sampleBytes (v : Nat) : List Nat := [0, v / 256, v % 256]

/-- A simulated SPI bus answering the 12-bit samples `vs` in sequence. -/
def encodeBus : List Nat → List Nat
  | [] => []
  | v :: vs => sampleBytes v ++ encodeBus vs

/-! ## Helper lemmas -/

theorem and15_lt (x : Nat) : x &&& 15 < 16 :=
  lt_of_le_of_lt Nat.and_le_right (by norm_num)

theorem shiftor_eq : ∀ a < 16, ∀ b < 256, (a <<< 8) ||| b = a * 256 + b := by
  decide

theorem byteVal_eq (a : Nat) (ha : a < 16) (b : Nat) (hb : b < 256) :
    byteVal a b = a * 256 + b := by
  unfold byteVal
  rw [Nat.mod_eq_of_lt (lt_trans ha (by norm_num)), Nat.mod_eq_of_lt hb]
  exact shiftor_eq a ha b hb

theorem transfer_cons (s : MCP3208) (cmd r1 r2 r3 : Nat) (rest ck : List Nat)
    (ev : List Event) :
    s.transfer cmd ⟨r1 :: r2 :: r3 :: rest, ck, ev⟩ =
      (((r2 % 256) &&& 15) * 256 + r3 % 256,
       ⟨rest, ck,
        ev ++ [Event.csLow s.mCsPin, Event.spiXfer (hiByte cmd % 256) (r1 % 256),
               Event.spiXfer (loByte cmd % 256) (r2 % 256),
               Event.spiXfer (0 % 256) (r3 % 256), Event.csHigh s.mCsPin]⟩) := by
  have hv : byteVal ((r2 % 256) &&& 15) (r3 % 256)
      = ((r2 % 256) &&& 15) * 256 + r3 % 256 :=
    byteVal_eq _ (and15_lt _) _ (Nat.mod_lt _ (by norm_num))
  simp only [MCP3208.transfer, spiTransferByte, digitalWriteLow, digitalWriteHigh]
  simp [hv, List.append_assoc]

/-- C5: for every channel in 0–7, `createCmd` produces the 16-bit command
word `0x0400 | (channel << 6)`, i.e. the value `1024 + 64 * channel`. -/
theorem createCmd_spec (ch : Channel) (h : ch ≤ 7) :
    MCP3208.createCmd ch = 1024 + 64 * ch := by
  have hall : ∀ c, c < 8 → MCP3208.createCmd c = 1024 + 64 * c := by decide
  exact hall ch (Nat.lt_succ_of_le h)

theorem createCmd_spec_witness : MCP3208.createCmd 5 = 1024 + 64 * 5 :=
  createCmd_spec 5 (by norm_num)

/-- C6: one call to `transfer` performs exactly three byte exchanges — the
high command byte, the low command byte, then a dummy `0x00` — bracketed by
the chip-select assertions, and returns
`((secondResponse & 0x0F) << 8) | thirdResponse`, a value below 4096; in
particular responses `0xFA` then `0x3C` (after an arbitrary first response
byte) yield `0x0A3C = 2620`. -/
theorem transfer_exchange_spec (s : MCP3208) (cmd r1 r2 r3 : Nat)
    (rest ck : List Nat) (ev : List Event) :
    s.transfer cmd ⟨r1 :: r2 :: r3 :: rest, ck, ev⟩ =
      ((((r2 % 256) &&& 0x0F) <<< 8) ||| (r3 % 256),
       ⟨rest, ck,
        ev ++ [Event.csLow s.mCsPin, Event.spiXfer (hiByte cmd % 256) (r1 % 256),
               Event.spiXfer (loByte cmd % 256) (r2 % 256),
               Event.spiXfer (0 % 256) (r3 % 256), Event.csHigh s.mCsPin]⟩) ∧
    (s.transfer cmd ⟨r1 :: r2 :: r3 :: rest, ck, ev⟩).1 < 4096 ∧
    (s.transfer cmd ⟨r1 :: 0xFA :: 0x3C :: rest, ck, ev⟩).1 = 2620 := by
  have h := transfer_cons s cmd r1 r2 r3 rest ck ev
  have h2 := transfer_cons s cmd r1 0xFA 0x3C rest ck ev
  refine ⟨?_, ?_, ?_⟩
  · rw [h, shiftor_eq _ (and15_lt _) _ (Nat.mod_lt _ (by norm_num))]
  · rw [h]
    show ((r2 % 256) &&& 15) * 256 + r3 % 256 < 4096
    have key : ∀ a b : Nat, a < 16 → b < 256 → a * 256 + b < 4096 := by
      intro a b ha hb
      omega
    exact key _ _ (and15_lt _) (Nat.mod_lt _ (by norm_num))
  · rw [h2]
    show ((0xFA % 256) &&& 15) * 256 + 0x3C % 256 = 2620
    decide

/-- C3 counterexample: with `vref = 2048`, `toAnalog 1` is `0` because the
implementation truncates, while the nearest integer to `1 * 2048 / 4095`
is `1` (the spec's `round`); the scaled distances `|2048 - 4095 * 1|` and
`|2048 - 4095 * 0|` certify which integer is nearer. -/
theorem toAnalog_round_counterexample :
    (MCP3208.mk 2048 10 0).toAnalog 1 ≠ toAnalogSpecRounded (MCP3208.mk 2048 10 0) 1 ∧
    (MCP3208.mk 2048 10 0).toAnalog 1 = 0 ∧
    toAnalogSpecRounded (MCP3208.mk 2048 10 0) 1 = 1 ∧
    (2048 - 4095 * 1 : Int).natAbs < (2048 - 4095 * 0 : Int).natAbs := by
  refine ⟨by decide, by decide, by decide, by decide⟩

/-- C3 (amended): `toAnalog` scales with truncating (floor) integer
division, `toAnalog raw = raw * vref / 4095`; in particular
`toAnalog 0 = 0` and `toAnalog 4095 = vref` exactly.  The third and fourth
conjuncts characterise the result as the floor of `raw * vref / 4095`. -/
theorem toAnalog_floor (s : MCP3208) (raw : Nat) (hv : s.mVref < 65536)
    (hr : raw ≤ 4095) :
    s.toAnalog 0 = 0 ∧ s.toAnalog 4095 = s.mVref ∧
    4095 * s.toAnalog raw ≤ raw * s.mVref ∧
    raw * s.mVref < 4095 * s.toAnalog raw + 4095 := by
  have hv' : s.mVref % 65536 = s.mVref := Nat.mod_eq_of_lt hv
  have hraw' : raw % 65536 = raw := Nat.mod_eq_of_lt (by omega)
  have hA : s.toAnalog raw = raw * s.mVref / 4095 % 65536 := by
    simp only [MCP3208.toAnalog, kRes]
    norm_num [hraw', hv']
  have key : ∀ m : Nat, m ≤ 4095 * 65535 →
      4095 * (m / 4095 % 65536) ≤ m ∧ m < 4095 * (m / 4095 % 65536) + 4095 := by
    intro m hm
    have h1 : m / 4095 < 65536 := by omega
    rw [Nat.mod_eq_of_lt h1]
    omega
  obtain ⟨k1, k2⟩ := key (raw * s.mVref) (Nat.mul_le_mul hr (by omega))
  refine ⟨?_, ?_, ?_, ?_⟩
  · simp [MCP3208.toAnalog]
  · simp only [MCP3208.toAnalog, kRes]
    norm_num [hv']
  · rw [hA]
    exact k1
  · rw [hA]
    exact k2

theorem toAnalog_floor_witness :
    (MCP3208.mk 3300 10 0).toAnalog 0 = 0 ∧
    (MCP3208.mk 3300 10 0).toAnalog 4095 = (MCP3208.mk 3300 10 0).mVref ∧
    4095 * (MCP3208.mk 3300 10 0).toAnalog 2048 ≤ 2048 * (MCP3208.mk 3300 10 0).mVref ∧
    2048 * (MCP3208.mk 3300 10 0).mVref <
      4095 * (MCP3208.mk 3300 10 0).toAnalog 2048 + 4095 :=
  toAnalog_floor (MCP3208.mk 3300 10 0) 2048 (by norm_num) (by norm_num)

/-- The floor-division round trip `raw * V / 4095 * 4095 / V` recovers `raw`
to within one, for `4095 ≤ V`. -/
theorem floordiv_roundtrip (V raw : Nat) (hge : 4095 ≤ V) :
    raw * V / 4095 * 4095 / V ≤ raw ∧ raw ≤ raw * V / 4095 * 4095 / V + 1 := by
  have hV0 : 0 < V := by omega
  have h1 : 4095 * (raw * V / 4095) ≤ raw * V := by
    rw [Nat.mul_comm]
    exact Nat.div_mul_le_self (raw * V) 4095
  have h2 : raw * V < (raw * V / 4095 + 1) * 4095 :=
    (Nat.div_lt_iff_lt_mul (by norm_num : 0 < 4095)).mp (Nat.lt_succ_self _)
  have h3 : V * (raw * V / 4095 * 4095 / V) ≤ raw * V / 4095 * 4095 := by
    rw [Nat.mul_comm]
    exact Nat.div_mul_le_self _ V
  have h4 : raw * V / 4095 * 4095 < (raw * V / 4095 * 4095 / V + 1) * V :=
    (Nat.div_lt_iff_lt_mul hV0).mp (Nat.lt_succ_self _)
  constructor
  · have hmul : raw * V / 4095 * 4095 / V * V ≤ raw * V := by
      calc raw * V / 4095 * 4095 / V * V
          = V * (raw * V / 4095 * 4095 / V) := Nat.mul_comm _ _
        _ ≤ raw * V / 4095 * 4095 := h3
        _ = 4095 * (raw * V / 4095) := Nat.mul_comm _ _
        _ ≤ raw * V := h1
    exact Nat.le_of_mul_le_mul_right hmul hV0
  · have hlt : raw * V < (raw * V / 4095 * 4095 / V + 2) * V := by
      calc raw * V < (raw * V / 4095 + 1) * 4095 := h2
        _ = raw * V / 4095 * 4095 + 4095 := by ring
        _ ≤ raw * V / 4095 * 4095 + V := Nat.add_le_add_left hge _
        _ < (raw * V / 4095 * 4095 / V + 1) * V + V := Nat.add_lt_add_right h4 V
        _ = (raw * V / 4095 * 4095 / V + 2) * V := by ring
    have hlt' : V * raw < V * (raw * V / 4095 * 4095 / V + 2) := by
      rw [Nat.mul_comm V raw, Nat.mul_comm V (raw * V / 4095 * 4095 / V + 2)]
      exact hlt
    have := Nat.lt_of_mul_lt_mul_left hlt'
    omega

/-- C4: for every raw code in `[0, 4095]`, when `vref ≥ 4095` the round trip
`toDigital (toAnalog raw)` recovers `raw` to within ±1. -/
theorem toDigital_toAnalog_roundtrip (s : MCP3208) (raw : Nat)
    (hv : s.mVref < 65536) (hge : 4095 ≤ s.mVref) (hr : raw ≤ 4095) :
    s.toDigital (s.toAnalog raw) ≤ raw ∧
    raw ≤ s.toDigital (s.toAnalog raw) + 1 := by
  have hV0 : 0 < s.mVref := by omega
  have hv' : s.mVref % 65536 = s.mVref := Nat.mod_eq_of_lt hv
  have hraw' : raw % 65536 = raw := Nat.mod_eq_of_lt (by omega)
  have hle_a : raw * s.mVref / 4095 ≤ s.mVref := by
    have h1 : raw * s.mVref ≤ 4095 * s.mVref := Nat.mul_le_mul_right s.mVref hr
    have h2 : raw * s.mVref / 4095 ≤ 4095 * s.mVref / 4095 := Nat.div_le_div_right h1
    rwa [Nat.mul_div_cancel_left s.mVref (by norm_num : 0 < 4095)] at h2
  have hA : s.toAnalog raw = raw * s.mVref / 4095 := by
    simp only [MCP3208.toAnalog, kRes]
    norm_num [hraw', hv']
    exact lt_of_le_of_lt hle_a hv
  have hcancel : ∀ x : Nat, x * 4095 / 4095 = x := fun x => by omega
  have hd_le : raw * s.mVref / 4095 * 4095 / s.mVref ≤ raw * s.mVref / 4095 := by
    have h1 : raw * s.mVref / 4095 * 4095 / s.mVref ≤ raw * s.mVref / 4095 * 4095 / 4095 :=
      Nat.div_le_div_left hge (by norm_num)
    rwa [hcancel] at h1
  have hD : s.toDigital (s.toAnalog raw) = raw * s.mVref / 4095 * 4095 / s.mVref := by
    rw [hA]
    simp only [MCP3208.toDigital, kRes]
    norm_num [Nat.mod_eq_of_lt (lt_of_le_of_lt hle_a hv), hv']
    exact lt_of_le_of_lt (le_trans hd_le hle_a) hv
  rw [hD]
  exact floordiv_roundtrip s.mVref raw hge

theorem toDigital_toAnalog_roundtrip_witness :
    (MCP3208.mk 5000 10 0).toDigital ((MCP3208.mk 5000 10 0).toAnalog 2048) ≤ 2048 ∧
    2048 ≤ (MCP3208.mk 5000 10 0).toDigital ((MCP3208.mk 5000 10 0).toAnalog 2048) + 1 :=
  toDigital_toAnalog_roundtrip (MCP3208.mk 5000 10 0) 2048 (by norm_num)
    (by norm_num) (by norm_num)

/-- C2: at clock readings `t1 = 0, t2 = 2` and `num = 3` the measurement
returns `div_round(2000, 3) = (2000 + (3 >> 2)) / 3 = 666`, although the
nearest integer to `2000 / 3` is `667` (the scaled distances certify it):
the macro adds `d >> 2` instead of `d >> 1`, contradicting its own comment
"round to next integer". -/
theorem testSplSpeed_div_round_slip :
    ((MCP3208.mk 3300 10 0).testSplSpeed 0 3 (World.mk [] [0, 2] [])).1 = 666 ∧
    ((2 - 0) * 1000 - 3 * 667 : Int).natAbs < ((2 - 0) * 1000 - 3 * 666 : Int).natAbs := by
  constructor
  · rfl
  · decide

/-- C10: `getSplDelay` divides by the target frequency with no guard: the
embedding marks `splFreq = 0` as undefined (`none`), and for every positive
frequency below `2^32` the function is total (`some`). -/
theorem getSplDelay_zero_freq (s : MCP3208) (ch : Channel) (w : World)
    (splFreq : Nat) (h1 : 0 < splFreq) (h2 : splFreq < 4294967296) :
    s.getSplDelay ch 0 w = none ∧
    ∃ out, s.getSplDelay ch splFreq w = some out := by
  constructor
  · simp [MCP3208.getSplDelay]
  · unfold MCP3208.getSplDelay
    rw [if_neg]
    · exact ⟨_, rfl⟩
    · rw [Nat.mod_eq_of_lt h2]
      omega

theorem getSplDelay_zero_freq_witness :
    (MCP3208.mk 3300 10 5000).getSplDelay 0 0 (World.mk [] [] []) = none ∧
    ∃ out, (MCP3208.mk 3300 10 5000).getSplDelay 0 1000 (World.mk [] [] []) = some out :=
  getSplDelay_zero_freq (MCP3208.mk 3300 10 5000) 0 (World.mk [] [] []) 1000
    (by norm_num) (by norm_num)

/-- Evaluation of `getSplDelay` when the device is already calibrated:
no calibration is triggered and state and world are returned unchanged. -/
theorem getSplDelay_eval (s : MCP3208) (ch : Channel) (splFreq : Nat)
    (w : World) (hz : splFreq % 4294967296 ≠ 0) (hb0 : s.mSplSpeed ≠ 0) :
    s.getSplDelay ch splFreq w =
      some (clampDelay (usub32 (div_round 1000000000 (splFreq % 4294967296))
              s.mSplSpeed / 1000), s, w) := by
  unfold MCP3208.getSplDelay
  rw [if_neg hz, if_neg hb0]

/-- Evaluation of `getSplDelay` on an uncalibrated device: `calibrate` runs
first and the delay is computed from the freshly stored baseline. -/
theorem getSplDelay_eval_uncal (s : MCP3208) (ch : Channel) (splFreq : Nat)
    (w : World) (hz : splFreq % 4294967296 ≠ 0) (hb0 : s.mSplSpeed = 0) :
    s.getSplDelay ch splFreq w =
      some (clampDelay (usub32 (div_round 1000000000 (splFreq % 4294967296))
              (s.calibrate ch w).1.mSplSpeed / 1000),
            (s.calibrate ch w).1, (s.calibrate ch w).2) := by
  unfold MCP3208.getSplDelay
  rw [if_neg hz, if_pos hb0]

/-- C1 counterexample: the subtraction in `getSplDelay` is unsigned 32-bit
and its quotient is truncated to `int16_t`, so the clamp can be defeated.
Calibrating with clock readings `0` and `30064771` µs (the timer wraps
between them) stores the baseline `16777215` ns; at a target frequency of
`1333333333` Hz the desired period is `1` ns ≤ baseline, yet `getSplDelay`
returns `18350`, not `0`. -/
theorem getSplDelay_unsigned_wrap_counterexample :
    ((MCP3208.mk 3300 10 0).calibrate 0 (World.mk [] [0, 30064771] [])).1.mSplSpeed
      = 16777215 ∧
    div_round 1000000000 1333333333 = 1 ∧
    (1 : Nat) ≤ 16777215 ∧
    (MCP3208.mk 3300 10 16777215).getSplDelay 0 1333333333 (World.mk [] [] []) =
      some (18350, MCP3208.mk 3300 10 16777215, World.mk [] [] []) ∧
    (18350 : Nat) ≠ 0 := by
  refine ⟨by decide, by decide, by decide, ?_, by decide⟩
  rw [getSplDelay_eval _ 0 1333333333 _ (by decide) (by decide)]
  decide

/-- C1 (amended): when the device is calibrated, the desired period does not
exceed the baseline, and the gap `baseline − period` is at most `2359296` ns,
`getSplDelay` returns `0` (first conjunct); and every value it ever returns
fits a non-negative `int16_t`, i.e. is at most `32767` — the scheduler never
reports a wait that reads back as negative (second conjunct). -/
theorem getSplDelay_clamped_zero :
    (∀ (s : MCP3208) (ch : Channel) (splFreq : Nat) (w : World),
      0 < splFreq → splFreq < 4294967296 →
      s.mSplSpeed ≠ 0 → s.mSplSpeed < 4294967296 →
      div_round 1000000000 splFreq ≤ s.mSplSpeed →
      s.mSplSpeed - div_round 1000000000 splFreq ≤ 2359296 →
      s.getSplDelay ch splFreq w = some (0, s, w)) ∧
    (∀ (s : MCP3208) (ch : Channel) (splFreq : Nat) (w : World)
      (d : Nat) (s' : MCP3208) (w' : World),
      s.getSplDelay ch splFreq w = some (d, s', w') → d ≤ 32767) := by
  have hclamp : ∀ q : Nat, clampDelay q ≤ 32767 := by
    intro q
    unfold clampDelay
    split
    · omega
    · omega
  have key : ∀ T B : Nat, T < 4294967296 → B < 4294967296 → T ≤ B →
      B - T ≤ 2359296 → clampDelay ((4294967296 + T - B) % 4294967296 / 1000) = 0 := by
    intro T B hT hB32 hle hgap
    unfold clampDelay
    rcases Nat.lt_or_ge T B with h | h
    · have hmod : (4294967296 + T - B) % 4294967296 = 4294967296 + T - B :=
        Nat.mod_eq_of_lt (by omega)
      rw [hmod]
      have hq1 : 4292608 ≤ (4294967296 + T - B) / 1000 := by omega
      have hq2 : (4294967296 + T - B) / 1000 ≤ 4294967 := by omega
      generalize hq : (4294967296 + T - B) / 1000 = q at hq1 hq2
      have hr : 32768 ≤ q % 65536 := by omega
      rw [if_pos hr]
    · have hTB : T = B := le_antisymm hle h
      subst hTB
      simp
  constructor
  · intro s ch splFreq w h1 h2 hb0 hb32 hle hgap
    have hmod : splFreq % 4294967296 = splFreq := Nat.mod_eq_of_lt h2
    rw [getSplDelay_eval s ch splFreq w (by omega) hb0, hmod]
    have hT32 : div_round 1000000000 splFreq < 4294967296 := by
      unfold div_round
      exact lt_of_le_of_lt (Nat.div_le_self _ _) (Nat.mod_lt _ (by norm_num))
    suffices h : clampDelay (usub32 (div_round 1000000000 splFreq) s.mSplSpeed / 1000) = 0 by
      rw [h]
    unfold usub32
    rw [Nat.mod_eq_of_lt hT32, Nat.mod_eq_of_lt hb32]
    exact key _ _ hT32 hb32 hle hgap
  · intro s ch splFreq w d s' w' h
    by_cases hz : splFreq % 4294967296 = 0
    · simp [MCP3208.getSplDelay, hz] at h
    · by_cases hs : s.mSplSpeed = 0
      · rw [getSplDelay_eval_uncal s ch splFreq w hz hs] at h
        simp only [Option.some.injEq, Prod.mk.injEq] at h
        obtain ⟨h1, -, -⟩ := h
        rw [← h1]
        exact hclamp _
      · rw [getSplDelay_eval s ch splFreq w hz hs] at h
        simp only [Option.some.injEq, Prod.mk.injEq] at h
        obtain ⟨h1, -, -⟩ := h
        rw [← h1]
        exact hclamp _

theorem getSplDelay_clamped_zero_witness :
    (MCP3208.mk 3300 10 2000000).getSplDelay 0 1000 (World.mk [] [] []) =
      some (0, MCP3208.mk 3300 10 2000000, World.mk [] [] []) :=
  getSplDelay_clamped_zero.1 (MCP3208.mk 3300 10 2000000) 0 1000 (World.mk [] [] [])
    (by decide) (by decide) (by decide) (by decide) (by decide) (by decide)

theorem and15_id : ∀ x < 16, x &&& 15 = x := by
  decide

/-- One `transfer` against a bus that encodes the 12-bit sample `v` yields
exactly `v` and leaves the rest of the bus and the clock untouched. -/
theorem transfer_sample (s : MCP3208) (cmd v : Nat) (hv : v < 4096)
    (r ck : List Nat) (ev : List Event) :
    ∃ ev', s.transfer cmd ⟨sampleBytes v ++ r, ck, ev⟩ = (v, ⟨r, ck, ev'⟩) := by
  have hlist : (sampleBytes v ++ r : List Nat) = 0 :: v / 256 :: v % 256 :: r := rfl
  have h := transfer_cons s cmd 0 (v / 256) (v % 256) r ck ev
  have h1 : v / 256 % 256 = v / 256 := Nat.mod_eq_of_lt (by omega)
  have h2 : v % 256 % 256 = v % 256 := Nat.mod_eq_of_lt (Nat.mod_lt _ (by norm_num))
  have h3 : v / 256 &&& 15 = v / 256 := and15_id _ (by omega)
  have hval : (v / 256 % 256 &&& 15) * 256 + v % 256 % 256 = v := by
    rw [h1, h3, h2]
    omega
  refine ⟨ev ++ [Event.csLow s.mCsPin, Event.spiXfer (hiByte cmd % 256) (0 % 256),
    Event.spiXfer (loByte cmd % 256) (v / 256 % 256),
    Event.spiXfer (0 % 256) (v % 256 % 256), Event.csHigh s.mCsPin], ?_⟩
  rw [hlist, h, hval]

/-- The gating loop on a bus encoding `pre ++ g :: post`, where every sample
of `pre` fails the predicate and `g` satisfies it, consumes `pre` and `g`
(both discarded) and stops with the bus positioned at `post`. -/
theorem gateLoop_encode (s : MCP3208) (cmd : Nat) (p : Nat → Bool) :
    ∀ (pre : List Nat) (g : Nat) (post : List Nat) (fuel : Nat)
      (ck : List Nat) (ev : List Event),
      (∀ x ∈ pre, p x = false) → p g = true →
      (∀ x ∈ pre, x < 4096) → g < 4096 →
      pre.length < fuel →
      ∃ ev', gateLoop s cmd p fuel ⟨encodeBus (pre ++ g :: post), ck, ev⟩ =
        some ⟨encodeBus post, ck, ev'⟩ := by
  intro pre
  induction pre with
  | nil =>
    intro g post fuel ck ev hpre hg hpre4 hg4 hfuel
    match fuel, hfuel with
    | Nat.succ n, _ =>
      obtain ⟨ev', htr⟩ := transfer_sample s cmd g hg4 (encodeBus post) ck ev
      refine ⟨ev', ?_⟩
      have hlist : encodeBus ([] ++ g :: post) = sampleBytes g ++ encodeBus post := rfl
      simp only [gateLoop, hlist, htr, hg]
      simp
  | cons x pre ih =>
    intro g post fuel ck ev hpre hg hpre4 hg4 hfuel
    match fuel, hfuel with
    | Nat.succ n, hfuel =>
      have hx : p x = false := hpre x (List.mem_cons_self x pre)
      have hx4 : x < 4096 := hpre4 x (List.mem_cons_self x pre)
      obtain ⟨ev1, htr⟩ :=
        transfer_sample s cmd x hx4 (encodeBus (pre ++ g :: post)) ck ev
      obtain ⟨ev', hrec⟩ := ih g post n ck ev1
        (fun y hy => hpre y (List.mem_cons_of_mem x hy)) hg
        (fun y hy => hpre4 y (List.mem_cons_of_mem x hy)) hg4
        (by simpa using Nat.lt_of_succ_lt_succ hfuel)
      refine ⟨ev', ?_⟩
      have hlist : encodeBus ((x :: pre) ++ g :: post)
          = sampleBytes x ++ encodeBus (pre ++ g :: post) := rfl
      simp only [gateLoop, hlist, htr, hx]
      simpa using hrec

/-- The collection loop on a bus encoding the samples `vs` returns the first
`num` of them, in bus order, leaving the clock untouched. -/
theorem readLoop_encode (s : MCP3208) (cmd : Nat) :
    ∀ (num : Nat) (vs ck : List Nat) (ev : List Event),
      num ≤ vs.length → (∀ x ∈ vs, x < 4096) →
      ∃ ev' rest, readLoop s cmd num ⟨encodeBus vs, ck, ev⟩ =
        (vs.take num, ⟨rest, ck, ev'⟩) := by
  intro num
  induction num with
  | zero =>
    intro vs ck ev h1 h2
    exact ⟨ev, encodeBus vs, rfl⟩
  | succ n ih =>
    intro vs ck ev h1 h2
    cases vs with
    | nil => simp at h1
    | cons v vs =>
      obtain ⟨ev1, htr⟩ :=
        transfer_sample s cmd v (h2 v (List.mem_cons_self v vs)) (encodeBus vs) ck ev
      obtain ⟨ev', rest, hrec⟩ := ih vs ck ev1 (Nat.le_of_succ_le_succ (by simpa using h1))
        (fun y hy => h2 y (List.mem_cons_of_mem v hy))
      refine ⟨ev', rest, ?_⟩
      have hlist : encodeBus (v :: vs) = sampleBytes v ++ encodeBus vs := rfl
      simp only [readLoop, hlist, htr, hrec]
      simp

/-- C7: the predicate-gated read transfers and discards samples — including
the first one satisfying the predicate — until the predicate holds, then
collects exactly `num` further samples in bus order: on a bus encoding
`pre ++ g :: post` with every sample of `pre` failing `p` and `p g = true`,
it returns the first `num` samples of `post` (and the device state
unchanged). -/
theorem readn_if_gates_then_collects (s : MCP3208) (ch : Channel)
    (p : Nat → Bool) (pre : List Nat) (g : Nat) (post : List Nat)
    (num fuel : Nat) (ck : List Nat) (ev : List Event)
    (hpre : ∀ x ∈ pre, p x = false) (hg : p g = true)
    (hpre4 : ∀ x ∈ pre, x < 4096) (hg4 : g < 4096)
    (hpost4 : ∀ x ∈ post, x < 4096)
    (hfuel : pre.length < fuel) (hnum : num ≤ post.length) :
    (s.readn_if ch num p fuel ⟨encodeBus (pre ++ g :: post), ck, ev⟩).map
        (fun o => (o.1, o.2.1))
      = some (post.take num, s) := by
  obtain ⟨ev1, hgate⟩ := gateLoop_encode s (MCP3208.createCmd ch) p pre g post
    fuel ck ev hpre hg hpre4 hg4 hfuel
  obtain ⟨ev', rest, hcoll⟩ := readLoop_encode s (MCP3208.createCmd ch) num post
    ck ev1 hnum hpost4
  unfold MCP3208.readn_if
  rw [hgate]
  simp [hcoll]

theorem readn_if_gates_then_collects_witness :
    ((MCP3208.mk 3300 10 0).readn_if 0 2 (fun v => v == 42) 4
        ⟨encodeBus ([5, 5, 5] ++ 42 :: [7, 7]), [], []⟩).map (fun o => (o.1, o.2.1))
      = some ([7, 7].take 2, MCP3208.mk 3300 10 0) :=
  readn_if_gates_then_collects (MCP3208.mk 3300 10 0) 0 (fun v => v == 42)
    [5, 5, 5] 42 [7, 7] 2 4 [] [] (by decide) (by decide) (by decide)
    (by decide) (by decide) (by decide) (by decide)

theorem transfer_clock (s : MCP3208) (cmd : Nat) (w : World) :
    (s.transfer cmd w).2.clock = w.clock := rfl

theorem readLoop_clock (s : MCP3208) (cmd : Nat) :
    ∀ (n : Nat) (w : World), (readLoop s cmd n w).2.clock = w.clock := by
  intro n
  induction n with
  | zero => intro w; rfl
  | succ k ih =>
    intro w
    simp only [readLoop]
    rw [ih]
    exact transfer_clock s cmd w

/-- `calibrate` stores the fresh 256-sample measurement, computed from the
next two clock readings alone — independent of any previously stored
baseline. -/
theorem calibrate_measurement (s : MCP3208) (ch : Channel) (w : World) :
    (s.calibrate ch w).1.mSplSpeed =
      div_round (usub32 (w.clock.tail.headD 0 % 4294967296)
        (w.clock.headD 0 % 4294967296) * 1000 % 4294967296) 256 := by
  simp only [MCP3208.calibrate, MCP3208.testSplSpeed, micros, readLoop_clock]

/-- C8: the baseline is lazy and sticky.  A nonzero stored baseline means
`getSplDelay` leaves device and world untouched and reuses the stored value
(first conjunct); a zero baseline makes it run `calibrate` first and use the
fresh value (second conjunct); and `calibrate` always overwrites the
baseline with the fresh 256-sample measurement, regardless of the previous
value (third conjunct). -/
theorem calibration_lazy_sticky :
    (∀ (s : MCP3208) (ch : Channel) (f : Nat) (w : World),
      f % 4294967296 ≠ 0 → s.mSplSpeed ≠ 0 →
      s.getSplDelay ch f w =
        some (clampDelay (usub32 (div_round 1000000000 (f % 4294967296))
                s.mSplSpeed / 1000), s, w)) ∧
    (∀ (s : MCP3208) (ch : Channel) (f : Nat) (w : World),
      f % 4294967296 ≠ 0 → s.mSplSpeed = 0 →
      s.getSplDelay ch f w =
        some (clampDelay (usub32 (div_round 1000000000 (f % 4294967296))
                (s.calibrate ch w).1.mSplSpeed / 1000),
              (s.calibrate ch w).1, (s.calibrate ch w).2)) ∧
    (∀ (s : MCP3208) (ch : Channel) (w : World),
      (s.calibrate ch w).1.mSplSpeed =
        div_round (usub32 (w.clock.tail.headD 0 % 4294967296)
          (w.clock.headD 0 % 4294967296) * 1000 % 4294967296) 256) :=
  ⟨getSplDelay_eval, getSplDelay_eval_uncal, calibrate_measurement⟩

theorem calibration_lazy_sticky_witness :
    (MCP3208.mk 3300 10 5000).getSplDelay 0 1000 (World.mk [] [] []) =
      some (clampDelay (usub32 (div_round 1000000000 (1000 % 4294967296))
              5000 / 1000),
            MCP3208.mk 3300 10 5000, World.mk [] [] []) :=
  calibration_lazy_sticky.1 (MCP3208.mk 3300 10 5000) 0 1000 (World.mk [] [] [])
    (by decide) (by decide)

theorem getSplDelay_frame (s : MCP3208) (ch : Channel) (f : Nat) (w : World)
    (d : Nat) (s' : MCP3208) (w' : World)
    (h : s.getSplDelay ch f w = some (d, s', w')) :
    s'.mVref = s.mVref ∧ s'.mCsPin = s.mCsPin := by
  by_cases hz : f % 4294967296 = 0
  · simp [MCP3208.getSplDelay, hz] at h
  · by_cases hs : s.mSplSpeed = 0
    · rw [getSplDelay_eval_uncal s ch f w hz hs] at h
      simp only [Option.some.injEq, Prod.mk.injEq] at h
      obtain ⟨-, h2, -⟩ := h
      rw [← h2]
      exact ⟨rfl, rfl⟩
    · rw [getSplDelay_eval s ch f w hz hs] at h
      simp only [Option.some.injEq, Prod.mk.injEq] at h
      obtain ⟨-, h2, -⟩ := h
      rw [← h2]
      exact ⟨rfl, rfl⟩

/-- C9: the calibrated duration is the only mutable device field, and only
calibration paths touch it.  The const operations — `read`, fixed-count
`readn`, the plain `readn_if`, `toAnalog`, `toDigital` (which read only
`mVref`), and the const `testSplSpeed` forms — return the device state
unchanged; `calibrate` and the rate-aware operations preserve `mVref` and
`mCsPin`, touching only `mSplSpeed`. -/
theorem mutable_state_frame :
    (∀ (s : MCP3208) (ch : Channel) (w : World), (s.read ch w).2.1 = s) ∧
    (∀ (s : MCP3208) (ch : Channel) (num : Nat) (w : World),
      (s.readn ch num w).2.1 = s) ∧
    (∀ (s : MCP3208) (ch : Channel) (num : Nat) (p : Nat → Bool)
      (fuel : Nat) (w : World),
      (s.readn_if ch num p fuel w).map (fun o => o.2.1)
        = (s.readn_if ch num p fuel w).map (fun o2 => s)) ∧
    (∀ (s : MCP3208) (raw : Nat),
      s.toAnalog raw = (MCP3208.mk s.mVref 0 0).toAnalog raw) ∧
    (∀ (s : MCP3208) (val : Nat),
      s.toDigital val = (MCP3208.mk s.mVref 0 0).toDigital val) ∧
    (∀ (s : MCP3208) (ch : Channel) (num : Nat) (w : World),
      (s.testSplSpeed ch num w).2.1 = s) ∧
    (∀ (s : MCP3208) (ch : Channel) (w : World),
      (s.testSplSpeed64 ch w).2.1 = s) ∧
    (∀ (s : MCP3208) (ch : Channel) (w : World),
      (s.calibrate ch w).1.mVref = s.mVref ∧
      (s.calibrate ch w).1.mCsPin = s.mCsPin) ∧
    (∀ (s : MCP3208) (ch : Channel) (num f : Nat) (w : World),
      (s.readnAtRate ch num f w).map (fun o => (o.2.1.mVref, o.2.1.mCsPin))
        = (s.readnAtRate ch num f w).map (fun o2 => (s.mVref, s.mCsPin))) ∧
    (∀ (s : MCP3208) (ch : Channel) (num f : Nat) (p : Nat → Bool)
      (fuel : Nat) (w : World),
      (s.readn_ifAtRate ch num f p fuel w).map (fun o => (o.2.1.mVref, o.2.1.mCsPin))
        = (s.readn_ifAtRate ch num f p fuel w).map (fun o2 => (s.mVref, s.mCsPin))) ∧
    (∀ (s : MCP3208) (ch : Channel) (num f : Nat) (w : World),
      (s.testSplSpeedAtRate ch num f w).map (fun o => (o.2.1.mVref, o.2.1.mCsPin))
        = (s.testSplSpeedAtRate ch num f w).map (fun o2 => (s.mVref, s.mCsPin))) := by
  refine ⟨fun s ch w => rfl, fun s ch num w => rfl, ?_, fun s raw => rfl,
    fun s val => rfl, fun s ch num w => rfl, fun s ch w => rfl,
    fun s ch w => ⟨rfl, rfl⟩, ?_, ?_, ?_⟩
  · intro s ch num p fuel w
    unfold MCP3208.readn_if
    cases h : gateLoop s (MCP3208.createCmd ch) p fuel w <;> simp
  · intro s ch num f w
    unfold MCP3208.readnAtRate
    cases h : s.getSplDelay ch f w with
    | none => simp
    | some o =>
      obtain ⟨d, s', w'⟩ := o
      obtain ⟨h1, h2⟩ := getSplDelay_frame s ch f w d s' w' h
      simp [h1, h2]
  · intro s ch num f p fuel w
    unfold MCP3208.readn_ifAtRate
    cases h : s.getSplDelay ch f w with
    | none => simp
    | some o =>
      obtain ⟨d, s', w'⟩ := o
      obtain ⟨h1, h2⟩ := getSplDelay_frame s ch f w d s' w' h
      cases hg : gateLoop s' (MCP3208.createCmd ch) p fuel w' <;> simp [hg, h1, h2]
  · intro s ch num f w
    unfold MCP3208.testSplSpeedAtRate
    cases h : s.getSplDelay ch f w with
    | none => simp
    | some o =>
      obtain ⟨d, s', w'⟩ := o
      obtain ⟨h1, h2⟩ := getSplDelay_frame s ch f w d s' w' h
      simp [h1, h2]
